import Mathlib

/-!
Verification of the DART disclosure-event pipeline
(`src/ingest/events.py`, `src/ingest/events_detail.py`,
`src/common/dart_client.py`).

The Python sources are shallowly embedded as executable Lean
definitions: strings become `String`/`List Char`, dates become day
numbers (`Nat`), pandas tables become `List` of records, the remote
API becomes an explicit response function supplied as an argument.
Each definition keeps the source's name (camel-cased) and mirrors its
control flow line by line; loops whose bound is data-dependent take an
explicit fuel argument that provably dominates the Python loop's trip
count at every call site considered.
-/

namespace DartPipeline

/-! ## Generic list helpers used by the embedding -/

/-- Keep, for each key, only the last occurrence (the semantics of
pandas `drop_duplicates(subset=key, keep="last")`, which preserves the
relative order of the surviving rows). -/
def dropDupKeepLast {α κ : Type} [DecidableEq κ] (key : α → κ) : List α → List α
  | [] => []
  | r :: rs =>
    if rs.any (fun x => key x = key r) then dropDupKeepLast key rs
    else r :: dropDupKeepLast key rs

/-- Helper for `dedupKeepFirst`: drop every element already in `seen`,
keeping the first occurrence of each new value. -/
def dedupKeepFirstAux {α : Type} [DecidableEq α] : List α → List α → List α
  | _, [] => []
  | seen, x :: xs =>
    if x ∈ seen then dedupKeepFirstAux seen xs
    else x :: dedupKeepFirstAux (x :: seen) xs

/-- Keep, for each value, only the first occurrence (the semantics of
pandas `Series.unique()`, which preserves first-occurrence order). -/
def dedupKeepFirst {α : Type} [DecidableEq α] (l : List α) : List α :=
  dedupKeepFirstAux [] l

/-! ## Event classifier (`src/ingest/events.py`, `EVENT_RULES` /
`_classify_event`) -/

/-- `EVENT_RULES`: the ordered keyword → (event_type, sub_type) table,
verbatim from `src/ingest/events.py` lines 30–55. -/
def EVENT_RULES : List (String × String × Option String) :=
  [ ("부도발생",           "DEFAULT",       none),
    ("어음부도",           "DEFAULT",       some "BILL"),
    ("영업정지",           "OPS_SUSPEND",   none),
    ("회생절차",           "REHAB",         none),
    ("법정관리",           "REHAB",         some "COURT"),
    ("해산사유",           "LIQUIDATION",   none),
    ("청산",               "LIQUIDATION",   some "WINDING_UP"),
    ("채권은행 관리",      "BANK_GROUP",    none),
    ("소송의 제기",        "LITIGATION",    some "FILED"),
    ("소송의 판결",        "LITIGATION",    some "JUDGMENT"),
    ("합병",               "MNA",           some "MERGER"),
    ("분할합병",           "MNA",           some "MERGER_SPLIT"),
    ("분할",               "MNA",           some "SPLIT"),
    ("주식교환",           "MNA",           some "STOCK_SWAP"),
    ("주식이전",           "MNA",           some "STOCK_TRANSFER"),
    ("영업양수",           "BIZ_ACQ",       some "ACQ"),
    ("영업양도",           "BIZ_DISP",      some "DISP"),
    ("자산양수",           "ASSET_ACQ",     some "ACQ"),
    ("자산양도",           "ASSET_DISP",    some "DISP"),
    ("유형자산 양수",      "ASSET_ACQ",     some "PPE"),
    ("유형자산 양도",      "ASSET_DISP",    some "PPE"),
    ("타법인 주식 및 출자증권 양수", "EQUITY_ACQ", some "ACQ"),
    ("타법인 주식 및 출자증권 양도", "EQUITY_DISP", some "DISP") ]

/-- Python substring containment `kw in name`, on character lists. -/
def containsSub (kw name : List Char) : Bool := decide (kw <:+: name)

/-- Python `str.strip()`: drop whitespace from both ends. -/
def pyStrip (s : List Char) : List Char :=
  ((s.dropWhile Char.isWhitespace).reverse.dropWhile Char.isWhitespace).reverse

/-- The catch-all phrase tested after the rule table
(`"주요사항보고서" in name`). -/
def MAJOR_PHRASE : String := "주요사항보고서"

/-- `_classify_event` restricted to `str` input: strip the title, scan
`EVENT_RULES` in order returning the first keyword hit, fall back to
the catch-all ("MAJOR", None), else (None, None). -/
def classifyEvent (reportNm : String) : Option String × Option String :=
  match EVENT_RULES.find?
      (fun r => containsSub r.1.toList (pyStrip reportNm.toList)) with
  | some r => (some r.2.1, r.2.2)
  | none =>
    if containsSub MAJOR_PHRASE.toList (pyStrip reportNm.toList) then
      (some "MAJOR", none)
    else (none, none)

/-- The first character of `l`, when present, is not whitespace. -/
def headNotWS (l : List Char) : Bool :=
  match l.head? with
  | some c => !c.isWhitespace
  | none => false

/-- The last character of `l`, when present, is not whitespace. -/
def lastNotWS (l : List Char) : Bool := headNotWS l.reverse

/-- The first rule of `EVENT_RULES` whose keyword occurs in the raw
(unstripped) title, as the spec describes the classifier. -/
def firstMatchingRule (title : String) : Option (String × String × Option String) :=
  EVENT_RULES.find? (fun r => containsSub r.1.toList title.toList)

/-- Arbitrary Python values at the classifier's public boundary: a
string, or any non-string object (None, int, float, list, …). -/
inductive PyVal where
  | str (s : String)
  | pyNone
  | int (n : Int)
  | listv (xs : List PyVal)

/-- `_classify_event` as written: the `isinstance(report_nm, str)`
guard returns (None, None) for every non-string input. -/
def classifyEventPy : PyVal → Option String × Option String
  | PyVal.str s => classifyEvent s
  | _ => (none, none)

/-! ## Date-window chunking (`_daterange_chunks`) -/

/-- One step of `_daterange_chunks`' while loop, with fuel.  Dates are
day numbers; `min (cur + step - 1) e` is the Python
`min(cur + one - timedelta(days=1), end)`. -/
def daterangeChunksAux : Nat → Nat → Nat → Nat → List (Nat × Nat)
  | 0, _, _, _ => []
  | fuel + 1, cur, e, step =>
    if cur ≤ e then
      (cur, min (cur + step - 1) e) ::
        daterangeChunksAux fuel (min (cur + step - 1) e + 1) e step
    else []

/-- `_daterange_chunks bgn end step_days`: the fuel `e + 1 - bgn`
dominates the loop's trip count whenever `1 ≤ step` (each iteration
advances `cur` by at least one day), so this equals the Python
generator's output on every input the pipeline uses. -/
def daterangeChunks (bgn e step : Nat) : List (Nat × Nat) :=
  daterangeChunksAux (e + 1 - bgn) bgn e step

/-! ### Properties of the window chunking -/

lemma chunksAux_nil (fuel cur e step : Nat) (h : e < cur) :
    daterangeChunksAux fuel cur e step = [] := by
  cases fuel with
  | zero => rfl
  | succ n =>
    simp only [daterangeChunksAux]
    rw [if_neg (by omega)]

lemma chunksAux_head (fuel cur e step : Nat) (hcur : cur ≤ e) :
    (daterangeChunksAux (fuel + 1) cur e step).head? =
      some (cur, min (cur + step - 1) e) := by
  simp only [daterangeChunksAux]
  rw [if_pos hcur]
  rfl

lemma chunksAux_mem (step : Nat) (hstep : 1 ≤ step) :
    ∀ fuel cur e, ∀ w ∈ daterangeChunksAux fuel cur e step,
      cur ≤ w.1 ∧ w.1 ≤ w.2 ∧ w.2 ≤ e ∧ w.2 + 1 ≤ w.1 + step := by
  intro fuel
  induction fuel with
  | zero =>
    intro cur e w hw
    simp [daterangeChunksAux] at hw
  | succ n ih =>
    intro cur e w hw
    simp only [daterangeChunksAux] at hw
    by_cases hc : cur ≤ e
    · rw [if_pos hc] at hw
      rcases List.mem_cons.mp hw with h | h
      · subst h
        refine ⟨le_refl _, ?_, ?_, ?_⟩ <;> simp <;> omega
      · have h4 := ih (min (cur + step - 1) e + 1) e w h
        omega
    · rw [if_neg hc] at hw
      simp at hw

lemma chunksAux_cover (step : Nat) (hstep : 1 ≤ step) :
    ∀ fuel cur e, e + 1 - cur ≤ fuel → ∀ d, cur ≤ d → d ≤ e →
      ∃ w ∈ daterangeChunksAux fuel cur e step, w.1 ≤ d ∧ d ≤ w.2 := by
  intro fuel
  induction fuel with
  | zero =>
    intro cur e hfuel d hd1 hd2
    omega
  | succ n ih =>
    intro cur e hfuel d hd1 hd2
    have hc : cur ≤ e := le_trans hd1 hd2
    simp only [daterangeChunksAux]
    rw [if_pos hc]
    by_cases hdw : d ≤ min (cur + step - 1) e
    · exact ⟨(cur, min (cur + step - 1) e), List.mem_cons_self _ _, hd1, hdw⟩
    · have hd3 : min (cur + step - 1) e + 1 ≤ d := by omega
      have hfuel2 : e + 1 - (min (cur + step - 1) e + 1) ≤ n := by omega
      obtain ⟨w, hw, hw2⟩ :=
        ih (min (cur + step - 1) e + 1) e hfuel2 d hd3 hd2
      exact ⟨w, List.mem_cons_of_mem _ hw, hw2⟩

lemma chunksAux_chain (step : Nat) (_hstep : 1 ≤ step) :
    ∀ fuel cur e,
      List.Chain' (fun a b => a.2 + 1 = b.1) (daterangeChunksAux fuel cur e step) := by
  intro fuel
  induction fuel with
  | zero =>
    intro cur e
    simp [daterangeChunksAux]
  | succ n ih =>
    intro cur e
    simp only [daterangeChunksAux]
    by_cases hc : cur ≤ e
    · rw [if_pos hc]
      rw [List.chain'_cons']
      refine ⟨?_, ih _ _⟩
      intro b hb
      by_cases h2 : min (cur + step - 1) e + 1 ≤ e
      · cases n with
        | zero => simp [daterangeChunksAux] at hb
        | succ m =>
          rw [chunksAux_head m _ e step h2] at hb
          simp at hb
          rw [← hb]
      · rw [chunksAux_nil n _ e step (by omega)] at hb
        simp at hb
    · rw [if_neg hc]
      exact List.chain'_nil

lemma chunksAux_pairwise (step : Nat) (hstep : 1 ≤ step) :
    ∀ fuel cur e,
      List.Pairwise (fun a b => a.2 < b.1) (daterangeChunksAux fuel cur e step) := by
  intro fuel
  induction fuel with
  | zero =>
    intro cur e
    simp [daterangeChunksAux]
  | succ n ih =>
    intro cur e
    simp only [daterangeChunksAux]
    by_cases hc : cur ≤ e
    · rw [if_pos hc]
      refine List.Pairwise.cons ?_ (ih _ _)
      intro w hw
      have h4 := chunksAux_mem step hstep n (min (cur + step - 1) e + 1) e w hw
      omega
    · rw [if_neg hc]
      exact List.Pairwise.nil

/-- **C4.** For every start/end with `bgn ≤ e` and window size `step ≥ 1`
(the pipeline uses `WINDOW_DAYS = 90`), `_daterange_chunks` partitions the
inclusive day range `[bgn, e]` into chronological windows of at most
`step` days that are non-overlapping, contiguous (each window starts the
day after the previous one ends), and exactly cover the range; in
particular a 200-day range at 90-day windows yields exactly the three
windows `[0,89]`, `[90,179]`, `[180,199]`. -/
theorem daterangeChunks_partition (bgn e step : Nat) (hstep : 1 ≤ step) (_hbe : bgn ≤ e) :
    (∀ w ∈ daterangeChunks bgn e step, w.1 ≤ w.2 ∧ w.2 + 1 ≤ w.1 + step)
    ∧ List.Chain' (fun a b => a.2 + 1 = b.1) (daterangeChunks bgn e step)
    ∧ List.Pairwise (fun a b => a.2 < b.1) (daterangeChunks bgn e step)
    ∧ (∀ d, (bgn ≤ d ∧ d ≤ e) ↔
        ∃ w ∈ daterangeChunks bgn e step, w.1 ≤ d ∧ d ≤ w.2)
    ∧ daterangeChunks 0 199 90 = [(0, 89), (90, 179), (180, 199)] := by
  refine ⟨?_, ?_, ?_, ?_, by decide⟩
  · intro w hw
    have h := chunksAux_mem step hstep (e + 1 - bgn) bgn e w hw
    exact ⟨h.2.1, h.2.2.2⟩
  · exact chunksAux_chain step hstep (e + 1 - bgn) bgn e
  · exact chunksAux_pairwise step hstep (e + 1 - bgn) bgn e
  · intro d
    constructor
    · intro hd
      exact chunksAux_cover step hstep (e + 1 - bgn) bgn e (by omega) d hd.1 hd.2
    · intro hd
      obtain ⟨w, hw, hw2⟩ := hd
      have h := chunksAux_mem step hstep (e + 1 - bgn) bgn e w hw
      omega

/-- Witness for C4: the 200-day / 90-day instance of
`daterangeChunks_partition`. -/
theorem daterangeChunks_partition_witness :
    daterangeChunks 0 199 90 = [(0, 89), (90, 179), (180, 199)]
    ∧ List.Pairwise (fun a b => a.2 < b.1) (daterangeChunks 0 199 90) :=
  ⟨(daterangeChunks_partition 0 199 90 (by decide) (by decide)).2.2.2.2,
   (daterangeChunks_partition 0 199 90 (by decide) (by decide)).2.2.1⟩

/-! ### Properties of the classifier -/

lemma infixRev {α : Type} {t s : List α} (h : t <:+: s) :
    t.reverse <:+: s.reverse := by
  obtain ⟨u, v, hs⟩ := h
  exact ⟨v.reverse, u.reverse, by rw [← hs]; simp⟩

lemma infixOfRev {α : Type} {t s : List α} (h : t.reverse <:+: s.reverse) :
    t <:+: s := by
  have h2 := infixRev h
  simpa using h2

lemma infixDropWhileOfHead {α : Type} (p : α → Bool) (t s : List α)
    (hhead : ∀ c, t.head? = some c → p c = false) (h : t <:+: s) :
    t <:+: s.dropWhile p := by
  obtain ⟨u, v, hs⟩ := h
  subst hs
  induction u with
  | nil =>
    cases t with
    | nil => exact ⟨[], List.dropWhile p v, by simp⟩
    | cons a t2 =>
      have ha : p a = false := hhead a rfl
      rw [show ([] : List α) ++ (a :: t2) ++ v = a :: (t2 ++ v) from rfl,
        List.dropWhile_cons, if_neg (by simp [ha])]
      exact ⟨[], v, by simp⟩
  | cons a u2 ih =>
    by_cases hpa : p a = true
    · rw [show (a :: u2) ++ t ++ v = a :: (u2 ++ t ++ v) from rfl,
        List.dropWhile_cons, if_pos hpa]
      exact ih
    · rw [show (a :: u2) ++ t ++ v = a :: (u2 ++ t ++ v) from rfl,
        List.dropWhile_cons, if_neg hpa]
      exact ⟨a :: u2, v, by simp⟩

lemma pyStripInfixSelf (s : List Char) : pyStrip s <:+: s := by
  have h1 : List.dropWhile Char.isWhitespace s <:+ s := List.dropWhile_suffix _
  have h2 : List.dropWhile Char.isWhitespace
      ((List.dropWhile Char.isWhitespace s).reverse) <:+
      (List.dropWhile Char.isWhitespace s).reverse := List.dropWhile_suffix _
  obtain ⟨u, hu⟩ := h1
  obtain ⟨w, hw⟩ := h2
  refine ⟨u, w.reverse, ?_⟩
  have hw2 : pyStrip s ++ w.reverse = List.dropWhile Char.isWhitespace s := by
    have := congrArg List.reverse hw
    simpa [pyStrip] using this
  calc u ++ pyStrip s ++ w.reverse
      = u ++ (pyStrip s ++ w.reverse) := by rw [List.append_assoc]
    _ = u ++ List.dropWhile Char.isWhitespace s := by rw [hw2]
    _ = s := hu

lemma infixPyStrip (t s : List Char)
    (h1 : headNotWS t = true) (h2 : lastNotWS t = true) (h : t <:+: s) :
    t <:+: pyStrip s := by
  have hh : ∀ c, t.head? = some c → Char.isWhitespace c = false := by
    intro c hc
    simp only [headNotWS, hc] at h1
    simpa using h1
  have hl : ∀ c, t.reverse.head? = some c → Char.isWhitespace c = false := by
    intro c hc
    simp only [lastNotWS, headNotWS, hc] at h2
    simpa using h2
  have s1 : t <:+: List.dropWhile Char.isWhitespace s :=
    infixDropWhileOfHead Char.isWhitespace t s hh h
  have s2 : t.reverse <:+:
      (List.dropWhile Char.isWhitespace s).reverse := infixRev s1
  have s3 : t.reverse <:+: List.dropWhile Char.isWhitespace
      ((List.dropWhile Char.isWhitespace s).reverse) :=
    infixDropWhileOfHead Char.isWhitespace t.reverse _ hl s2
  refine infixOfRev ?_
  simpa [pyStrip] using s3

lemma containsSubPyStrip (kw s : List Char)
    (h1 : headNotWS kw = true) (h2 : lastNotWS kw = true) :
    containsSub kw (pyStrip s) = containsSub kw s := by
  simp only [containsSub, decide_eq_decide]
  constructor
  · intro h
    exact h.trans (pyStripInfixSelf s)
  · intro h
    exact infixPyStrip kw s h1 h2 h

lemma findCongr {α : Type} (p q : α → Bool) :
    ∀ l : List α, (∀ x ∈ l, p x = q x) → l.find? p = l.find? q := by
  intro l
  induction l with
  | nil => intro _; rfl
  | cons a l2 ih =>
    intro h
    have ha := h a (List.mem_cons_self a l2)
    by_cases hb : q a = true
    · rw [List.find?_cons_of_pos _ (ha ▸ hb), List.find?_cons_of_pos _ hb]
    · have hpa : p a = false := by
        rw [ha]
        exact Bool.of_not_eq_true hb
      rw [List.find?_cons_of_neg _ (by simp [hpa]),
        List.find?_cons_of_neg _ (by simp_all)]
      exact ih (fun x hx => h x (List.mem_cons_of_mem a hx))

/-- Every keyword of `EVENT_RULES` starts and ends with a
non-whitespace character, so `str.strip()` cannot affect whether it
occurs in a title. -/
lemma rulesBounded :
    ∀ r ∈ EVENT_RULES, headNotWS r.1.toList = true ∧ lastNotWS r.1.toList = true := by
  decide

lemma classifyFindEq (title : String) :
    EVENT_RULES.find?
        (fun r => containsSub r.1.toList (pyStrip title.toList)) =
      firstMatchingRule title := by
  refine findCongr _ _ EVENT_RULES ?_
  intro r hr
  exact containsSubPyStrip r.1.toList title.toList
    (rulesBounded r hr).1 (rulesBounded r hr).2

lemma classifyEventCases (title : String) :
    ((∃ r ∈ EVENT_RULES, containsSub r.1.toList title.toList = true) →
      (firstMatchingRule title).isSome = true)
    ∧ (∀ r, firstMatchingRule title = some r →
      classifyEvent title = (some r.2.1, r.2.2))
    ∧ (firstMatchingRule title = none →
      containsSub MAJOR_PHRASE.toList title.toList = true →
      classifyEvent title = (some "MAJOR", none))
    ∧ (firstMatchingRule title = none →
      containsSub MAJOR_PHRASE.toList title.toList = false →
      classifyEvent title = (none, none)) := by
  have hmajor : containsSub MAJOR_PHRASE.toList (pyStrip title.toList) =
      containsSub MAJOR_PHRASE.toList title.toList :=
    containsSubPyStrip _ _ (by decide) (by decide)
  refine ⟨?_, ?_, ?_, ?_⟩
  · intro h
    rw [firstMatchingRule, List.find?_isSome]
    obtain ⟨r, hr, hc⟩ := h
    exact ⟨r, hr, hc⟩
  · intro r hr
    simp only [classifyEvent, classifyFindEq, hr]
  · intro hr hphrase
    simp only [classifyEvent, classifyFindEq, hr]
    rw [hmajor, hphrase]
    rfl
  · intro hr hphrase
    simp only [classifyEvent, classifyFindEq, hr]
    rw [hmajor, hphrase]
    rfl

/-- **C3.** For every report title: if some rule keyword occurs in the
title, classification succeeds and returns exactly the
(event_type, sub_type) of the first matching rule in `EVENT_RULES`
order; if no rule matches but the catch-all phrase "주요사항보고서"
occurs, it returns ("MAJOR", none); otherwise it returns the
unclassified result (none, none). -/
theorem classifyEvent_firstRule (title : String) :
    ((∃ r ∈ EVENT_RULES, containsSub r.1.toList title.toList = true) →
      (firstMatchingRule title).isSome = true)
    ∧ (∀ r, firstMatchingRule title = some r →
      classifyEvent title = (some r.2.1, r.2.2))
    ∧ (firstMatchingRule title = none →
      containsSub MAJOR_PHRASE.toList title.toList = true →
      classifyEvent title = (some "MAJOR", none))
    ∧ (firstMatchingRule title = none →
      containsSub MAJOR_PHRASE.toList title.toList = false →
      classifyEvent title = (none, none)) :=
  classifyEventCases title

/-- Witness for C3: a title containing the default-occurrence keyword
"부도발생" is classified as ("DEFAULT", absent sub_type), via the
first-matching-rule theorem. -/
theorem classifyEvent_firstRule_witness :
    classifyEvent "주요사항보고서(부도발생)" = (some "DEFAULT", none) :=
  (classifyEvent_firstRule "주요사항보고서(부도발생)").2.1
    ("부도발생", "DEFAULT", none) (by decide)

/-- **C10.** `_classify_event` is total at its public boundary: every
non-string Python value is answered with the unclassified pair
(None, None) by the `isinstance` guard, and on strings it agrees with
the (total) string classifier, so it never raises. -/
theorem classifyEventPy_total :
    (∀ v : PyVal, (∀ s, v ≠ PyVal.str s) → classifyEventPy v = (none, none))
    ∧ (∀ s : String, classifyEventPy (PyVal.str s) = classifyEvent s) := by
  constructor
  · intro v hv
    cases v with
    | str s => exact absurd rfl (hv s)
    | pyNone => rfl
    | int n => rfl
    | listv xs => rfl
  · intro s
    rfl

/-- Witness for C10: the non-string value `None` is classified as
(None, None). -/
theorem classifyEventPy_total_witness :
    classifyEventPy PyVal.pyNone = (none, none) :=
  classifyEventPy_total.1 PyVal.pyNone (fun _ h => PyVal.noConfusion h)

/-! ## Phase 1: backfill rows and the checkpoint store
(`src/ingest/events.py`, `backfill_events` / `_write_checkpoint`) -/

/-- `CHECKPOINT_EVERY`: buffered-row threshold for mid-run saves. -/
def CHECKPOINT_EVERY : Nat := 5000

/-- `PAGE_COUNT`: the fixed page size of the list endpoint. -/
def PAGE_COUNT : Nat := 100

/-- `WINDOW_DAYS`: the fixed window size for `_daterange_chunks`. -/
def WINDOW_DAYS : Nat := 90

/-- One stub produced by `_fetch_list_for_company` (all fields default
to `""` via `it.get(..., "")`). -/
structure FilingStub where
  rcept_no : String
  corp_code : String
  corp_name : String
  rcept_dt : String
  report_nm : String
deriving DecidableEq

/-- One row of the persisted events table (`OUT_COLUMNS` order). -/
structure EventRecord where
  rcp_no : String
  corp_code : String
  event_date : Option String
  event_type : Option String
  sub_type : Option String
  amount : Option String
  counterparty : Option String
  summary : Option String
  report_nm : String
  rcept_dt : String
deriving DecidableEq

/-- Month alternatives of `strptime`'s `%m` regex
`1[0-2]|0[1-9]|[1-9]`, in backtracking preference order, each with the
remaining input. -/
def mAlts (s : List Char) : List (Nat × List Char) :=
  (match s with
    | '1' :: c :: rest =>
      if '0' ≤ c && c ≤ '2' then [(10 + (c.toNat - 48), rest)] else []
    | _ => []) ++
  (match s with
    | '0' :: c :: rest =>
      if '1' ≤ c && c ≤ '9' then [(c.toNat - 48, rest)] else []
    | _ => []) ++
  (match s with
    | c :: rest =>
      if '1' ≤ c && c ≤ '9' then [(c.toNat - 48, rest)] else []
    | _ => [])

/-- Day alternatives of `strptime`'s `%d` regex
`3[01]|[12]\d|0[1-9]|[1-9]`, in backtracking preference order. -/
def dAlts (s : List Char) : List (Nat × List Char) :=
  (match s with
    | '3' :: c :: rest =>
      if '0' ≤ c && c ≤ '1' then [(30 + (c.toNat - 48), rest)] else []
    | _ => []) ++
  (match s with
    | c1 :: c2 :: rest =>
      if ('1' ≤ c1 && c1 ≤ '2') && c2.isDigit then
        [((c1.toNat - 48) * 10 + (c2.toNat - 48), rest)]
      else []
    | _ => []) ++
  (match s with
    | '0' :: c :: rest =>
      if '1' ≤ c && c ≤ '9' then [(c.toNat - 48, rest)] else []
    | _ => []) ++
  (match s with
    | c :: rest =>
      if '1' ≤ c && c ≤ '9' then [(c.toNat - 48, rest)] else []
    | _ => [])

/-- Gregorian leap-year rule, as `datetime.date` validates days. -/
def leapYear (y : Nat) : Bool :=
  (y % 4 = 0 && !(y % 100 = 0)) || y % 400 = 0

/-- Days in a month, as `datetime.date` validates them. -/
def daysInMonth (y m : Nat) : Nat :=
  if m = 2 then (if leapYear y then 29 else 28)
  else if m = 4 || m = 6 || m = 9 || m = 11 then 30
  else 31

/-- Zero-pad to two digits, as `date.isoformat()` prints months/days. -/
def pad2 (n : Nat) : String :=
  if n < 10 then "0" ++ toString n else toString n

/-- Zero-pad to four digits, as `date.isoformat()` prints years. -/
def pad4 (n : Nat) : String :=
  if n < 10 then "000" ++ toString n
  else if n < 100 then "00" ++ toString n
  else if n < 1000 then "0" ++ toString n
  else toString n

/-- `datetime.strptime(rcept_dt, "%Y%m%d").date().isoformat()` wrapped
in `backfill_events`' try/except: `%Y` consumes exactly four digits,
`%m`/`%d` follow the stdlib's alternation regexes with backtracking,
the full string must be consumed, and `datetime.date` then validates
year ≥ 1 and the day against the month length. -/
def parseRceptDt (s : String) : Option String :=
  match s.toList with
  | y1 :: y2 :: y3 :: y4 :: rest =>
    if y1.isDigit && y2.isDigit && y3.isDigit && y4.isDigit then
      let y := (y1.toNat - 48) * 1000 + (y2.toNat - 48) * 100 +
        (y3.toNat - 48) * 10 + (y4.toNat - 48)
      match ((mAlts rest).flatMap
          (fun mc => (dAlts mc.2).map (fun dc => (mc.1, dc.1, dc.2)))).head? with
      | some (m, d, leftover) =>
        if leftover.isEmpty && 1 ≤ y && 1 ≤ d && d ≤ daysInMonth y m then
          some (pad4 y ++ "-" ++ pad2 m ++ "-" ++ pad2 d)
        else none
      | none => none
    else none
  | _ => none

/-- The per-stub body of `backfill_events`' inner loop: classify
`report_nm`; drop the stub when the classifier returns None, else
build the buffered row (amount/counterparty/summary left for phase 2). -/
def processStub (it : FilingStub) : Option EventRecord :=
  match classifyEvent it.report_nm with
  | (some etype, sub) =>
    some { rcp_no := it.rcept_no, corp_code := it.corp_code,
           event_date := parseRceptDt it.rcept_dt,
           event_type := some etype, sub_type := sub,
           amount := none, counterparty := none, summary := none,
           report_nm := it.report_nm, rcept_dt := it.rcept_dt }
  | (none, _) => none

/-- All rows buffered from a sequence of stubs. -/
def buildRows (stubs : List FilingStub) : List EventRecord :=
  stubs.filterMap processStub

/-- The dedup key of `_write_checkpoint`:
`drop_duplicates(subset=["rcp_no","corp_code"], keep="last")`. -/
def recKey (r : EventRecord) : String × String := (r.rcp_no, r.corp_code)

/-- `_write_checkpoint rows out_path mode`.  `persisted` is the current
parquet content (`none` = file absent); the result is the content after
the call.  Empty buffer: write an empty table only if the file is
absent.  `mode == "wb"` or file absent: overwrite with the buffer.
Otherwise (`"ab"`): concat old + buffer, dedup on (rcp_no, corp_code)
keeping the last occurrence, and write the merge. -/
def writeCheckpoint (rows : List EventRecord) (persisted : Option (List EventRecord))
    (mode : String) : Option (List EventRecord) :=
  if rows = [] then
    match persisted with
    | none => some []
    | some old => some old
  else if mode = "wb" ∨ persisted = none then some rows
  else some (dropDupKeepLast recKey (persisted.getD [] ++ rows))

/-- One company-window iteration of `backfill_events`: extend the
buffer with the window's classified rows, then checkpoint with
`mode="ab"` when the buffer length is a nonzero multiple of
`CHECKPOINT_EVERY`. -/
def runStep (st : List EventRecord × Option (List EventRecord))
    (batch : List FilingStub) : List EventRecord × Option (List EventRecord) :=
  let newRows := st.1 ++ buildRows batch
  if newRows.length ≠ 0 ∧ newRows.length % CHECKPOINT_EVERY = 0 then
    (newRows, writeCheckpoint newRows st.2 "ab")
  else (newRows, st.2)

/-- All rows a run buffers, one batch per company-window in iteration
order (windows abandoned by the per-window `except` contribute no
batch). -/
def flatBuild (batches : List (List FilingStub)) : List EventRecord :=
  (batches.map buildRows).flatten

/-- `backfill_events`' persistence skeleton: fold the company-window
batches through the buffer/checkpoint state, then save once more
unconditionally with `mode="wb"`. -/
def runBackfill (batches : List (List FilingStub))
    (persisted0 : Option (List EventRecord)) : Option (List EventRecord) :=
  writeCheckpoint (batches.foldl runStep ([], persisted0)).1
    (batches.foldl runStep ([], persisted0)).2 "wb"

/-! ### Properties of the checkpoint store -/

lemma memDropDup {α κ : Type} [DecidableEq κ] (key : α → κ) :
    ∀ l (r : α), r ∈ dropDupKeepLast key l → r ∈ l := by
  intro l
  induction l with
  | nil =>
    intro r hr
    simp [dropDupKeepLast] at hr
  | cons a l2 ih =>
    intro r hr
    simp only [dropDupKeepLast] at hr
    by_cases h : (l2.any fun x => decide (key x = key a)) = true
    · rw [if_pos h] at hr
      exact List.mem_cons_of_mem _ (ih r hr)
    · rw [if_neg h] at hr
      rcases List.mem_cons.mp hr with h2 | h2
      · exact h2 ▸ List.mem_cons_self _ _
      · exact List.mem_cons_of_mem _ (ih r h2)

lemma anyFalseFilterNil {α κ : Type} [DecidableEq κ] (key : α → κ) (l : List α) (k : κ)
    (h : (l.any fun x => decide (key x = k)) = false) :
    l.filter (fun r => decide (key r = k)) = [] := by
  rw [List.filter_eq_nil_iff]
  intro a ha
  have := List.any_eq_false.mp h a ha
  simpa using this

lemma filterDropDup {α κ : Type} [DecidableEq κ] (key : α → κ) :
    ∀ (l : List α) (k : κ),
      (dropDupKeepLast key l).filter (fun r => decide (key r = k)) =
        ((l.filter (fun r => decide (key r = k))).getLast?).toList := by
  intro l
  induction l with
  | nil =>
    intro k
    simp [dropDupKeepLast]
  | cons a l2 ih =>
    intro k
    simp only [dropDupKeepLast]
    by_cases hany : (l2.any fun x => decide (key x = key a)) = true
    · rw [if_pos hany]
      rw [ih k]
      by_cases hk : key a = k
      · subst hk
        obtain ⟨x, hx, hxk⟩ := List.any_eq_true.mp hany
        have hfil : x ∈ l2.filter (fun r => decide (key r = key a)) := by
          rw [List.mem_filter]
          exact ⟨hx, hxk⟩
        rw [List.filter_cons_of_pos (by simp)]
        cases hcase : l2.filter (fun r => decide (key r = key a)) with
        | nil => rw [hcase] at hfil; simp at hfil
        | cons y ys => simp
      · rw [List.filter_cons_of_neg (by simp [hk])]
    · rw [if_neg hany]
      by_cases hk : key a = k
      · subst hk
        have hnil : l2.filter (fun r => decide (key r = key a)) = [] :=
          anyFalseFilterNil key l2 (key a) (Bool.of_not_eq_true hany)
        rw [List.filter_cons_of_pos (by simp),
          List.filter_cons_of_pos (by simp), ih (key a), hnil]
        simp
      · rw [List.filter_cons_of_neg (by simp [hk]),
          List.filter_cons_of_neg (by simp [hk])]
        exact ih k

lemma runStepFst (st : List EventRecord × Option (List EventRecord))
    (batch : List FilingStub) :
    (runStep st batch).1 = st.1 ++ buildRows batch := by
  simp only [runStep]
  split
  · rfl
  · rfl

lemma foldlBuffer :
    ∀ (batches : List (List FilingStub)) acc p,
      (batches.foldl runStep (acc, p)).1 = acc ++ flatBuild batches := by
  intro batches
  induction batches with
  | nil =>
    intro acc p
    simp [flatBuild]
  | cons b bs ih =>
    intro acc p
    rw [List.foldl_cons]
    rcases hrs : runStep (acc, p) b with ⟨buf, p2⟩
    have hbuf : buf = acc ++ buildRows b := by
      have h := runStepFst (acc, p) b
      rw [hrs] at h
      exact h
    rw [ih buf p2, hbuf]
    simp [flatBuild]

lemma writeCheckpointWb (rows : List EventRecord) (p : Option (List EventRecord))
    (h : rows ≠ []) : writeCheckpoint rows p "wb" = some rows := by
  simp only [writeCheckpoint]
  rw [if_neg h, if_pos (Or.inl trivial)]

/-- **C1 (amended).** Phase-1 persistence: a write is performed
unconditionally at run end, but it overwrites the output with the
run's full in-memory buffer as-is — no merge with previously persisted
rows and no deduplication.  The merge-with-persisted plus
dedup-by-(rcp_no, corp_code)-keeping-the-last-occurrence behaviour
happens only in the mid-run `mode="ab"` checkpoints, which trigger
after a company-window exactly when the buffer length is a nonzero
multiple of `CHECKPOINT_EVERY = 5000`.  The final conjunct pins the
dedup semantics: for every key, exactly the last row with that key
survives. -/
theorem backfill_write_behavior :
    (∀ batches persisted0, flatBuild batches ≠ [] →
      runBackfill batches persisted0 = some (flatBuild batches))
    ∧ (∀ rows p, rows ≠ [] → writeCheckpoint rows p "wb" = some rows)
    ∧ (∀ rows old, rows ≠ [] →
      writeCheckpoint rows (some old) "ab" =
        some (dropDupKeepLast recKey (old ++ rows)))
    ∧ (∀ (l : List EventRecord) (k : String × String),
      (dropDupKeepLast recKey l).filter (fun r => decide (recKey r = k)) =
        ((l.filter (fun r => decide (recKey r = k))).getLast?).toList) := by
  refine ⟨?_, ?_, ?_, ?_⟩
  · intro batches persisted0 h
    unfold runBackfill
    rw [foldlBuffer batches [] persisted0]
    simp only [List.nil_append]
    exact writeCheckpointWb _ _ h
  · exact fun rows p h => writeCheckpointWb rows p h
  · intro rows old h
    simp only [writeCheckpoint]
    rw [if_neg h, if_neg (by simp)]
    rfl
  · exact fun l k => filterDropDup recKey l k

/-- Witness for C1's amended theorem: a concrete one-window run from a
fresh output file. -/
theorem backfill_write_behavior_witness :
    runBackfill [[FilingStub.mk "r1" "c1" "n" "20240101" "합병 결정"]] none =
      some (flatBuild [[FilingStub.mk "r1" "c1" "n" "20240101" "합병 결정"]]) :=
  backfill_write_behavior.1 [[FilingStub.mk "r1" "c1" "n" "20240101" "합병 결정"]]
    none (by decide)

/-- Counterexample to C1 as stated: with one previously persisted row
(key ("r1","c1")) and a run that buffers one row with the different
key ("r2","c2"), the unconditional run-end write produces a table
containing only the buffered row — the previously persisted row is
dropped rather than merged and deduplicated. -/
theorem backfill_final_write_counterexample :
    runBackfill [[FilingStub.mk "r2" "c2" "n2" "20240102" "부도발생"]]
        (some [EventRecord.mk "r1" "c1" none (some "DEFAULT") none none none none
          "부도발생" "20240101"]) =
      some [EventRecord.mk "r2" "c2" (some "2024-01-02") (some "DEFAULT") none
        none none none "부도발생" "20240102"]
    ∧ ∀ r ∈ (runBackfill [[FilingStub.mk "r2" "c2" "n2" "20240102" "부도발생"]]
        (some [EventRecord.mk "r1" "c1" none (some "DEFAULT") none none none none
          "부도발생" "20240101"])).getD [],
      r.rcp_no ≠ "r1" := by
  decide

/-! ### The non-null event_type invariant -/

/-- Every row of `l` carries a (non-null) event type. -/
def allTyped (l : List EventRecord) : Prop :=
  ∀ r ∈ l, r.event_type.isSome = true

lemma buildRowsTyped (stubs : List FilingStub) : allTyped (buildRows stubs) := by
  intro r hr
  obtain ⟨a, ha, hpa⟩ := List.mem_filterMap.mp hr
  unfold processStub at hpa
  rcases hce : classifyEvent a.report_nm with ⟨et, st⟩
  rw [hce] at hpa
  cases et with
  | none => simp at hpa
  | some e =>
    simp only [Option.some.injEq] at hpa
    rw [← hpa]
    rfl

lemma writeCheckpointTyped (rows : List EventRecord) (p : Option (List EventRecord))
    (mode : String) (h1 : allTyped rows) (h2 : allTyped (p.getD [])) :
    allTyped ((writeCheckpoint rows p mode).getD []) := by
  intro r hr
  simp only [writeCheckpoint] at hr
  by_cases he : rows = []
  · rw [if_pos he] at hr
    cases p with
    | none => simp at hr
    | some old =>
      simp only [Option.getD_some] at hr
      exact h2 r hr
  · rw [if_neg he] at hr
    by_cases hm : mode = "wb" ∨ p = none
    · rw [if_pos hm] at hr
      simp only [Option.getD_some] at hr
      exact h1 r hr
    · rw [if_neg hm] at hr
      simp only [Option.getD_some] at hr
      have hmem := memDropDup recKey _ r hr
      rcases List.mem_append.mp hmem with h | h
      · exact h2 r h
      · exact h1 r h

lemma foldlTyped :
    ∀ (batches : List (List FilingStub)) acc p, allTyped acc → allTyped (p.getD []) →
      allTyped ((batches.foldl runStep (acc, p)).1) ∧
        allTyped ((batches.foldl runStep (acc, p)).2.getD []) := by
  intro batches
  induction batches with
  | nil =>
    intro acc p h1 h2
    exact ⟨h1, h2⟩
  | cons b bs ih =>
    intro acc p h1 h2
    rw [List.foldl_cons]
    have hnew : allTyped (acc ++ buildRows b) := by
      intro r hr
      rcases List.mem_append.mp hr with h | h
      · exact h1 r h
      · exact buildRowsTyped b r h
    have hstep1 : (runStep (acc, p) b).1 = acc ++ buildRows b := runStepFst _ _
    have hstep2 : allTyped ((runStep (acc, p) b).2.getD []) := by
      simp only [runStep]
      split
      · exact writeCheckpointTyped _ _ _ hnew h2
      · exact h2
    rcases hrs : runStep (acc, p) b with ⟨buf, p2⟩
    rw [hrs] at hstep1 hstep2
    have hbuf : buf = acc ++ buildRows b := hstep1
    refine ih buf p2 ?_ hstep2
    rw [hbuf]
    exact hnew

/-- **C6.** Unclassifiable filings are dropped before persistence, and
the resulting invariant holds for the whole run: a stub whose title
matches no rule and lacks the catch-all phrase produces no
`EventRecord`; every buffered row has a non-null event_type; every
write preserves the invariant; and a full run started from an
invariant-satisfying (or absent) output table ends with a table whose
rows all have a non-null event_type. -/
theorem eventType_invariant :
    (∀ stub : FilingStub, firstMatchingRule stub.report_nm = none →
      containsSub MAJOR_PHRASE.toList stub.report_nm.toList = false →
      processStub stub = none)
    ∧ (∀ stubs, allTyped (buildRows stubs))
    ∧ (∀ rows p mode, allTyped rows → allTyped (p.getD []) →
      allTyped ((writeCheckpoint rows p mode).getD []))
    ∧ (∀ batches persisted0, allTyped (persisted0.getD []) →
      allTyped ((runBackfill batches persisted0).getD [])) := by
  refine ⟨?_, buildRowsTyped, writeCheckpointTyped, ?_⟩
  · intro stub h1 h2
    have hc := (classifyEventCases stub.report_nm).2.2.2 h1 h2
    simp [processStub, hc]
  · intro batches persisted0 hp
    unfold runBackfill
    have h := foldlTyped batches [] persisted0 (by intro r hr; simp at hr) hp
    exact writeCheckpointTyped _ _ _ h.1 h.2

/-- Witness for C6: a generic periodic filing produces no record, and
a concrete one-window run from a fresh file yields only typed rows. -/
theorem eventType_invariant_witness :
    processStub (FilingStub.mk "r0" "c0" "n" "20240101" "분기보고서") = none
    ∧ allTyped ((runBackfill [[FilingStub.mk "r1" "c1" "n" "20240101" "합병 결정"]]
        none).getD []) :=
  ⟨eventType_invariant.1 (FilingStub.mk "r0" "c0" "n" "20240101" "분기보고서")
      (by decide) (by decide),
   eventType_invariant.2.2.2 [[FilingStub.mk "r1" "c1" "n" "20240101" "합병 결정"]]
      none (by intro r hr; simp at hr)⟩

/-! ## Transport client (`src/common/dart_client.py`, `DartClient.get`) -/

/-- What one `requests.get` call does: raise (connection failure /
timeout), or return a response with an HTTP status code. -/
inductive HttpOutcome where
  | exn
  | status (code : Nat)
deriving DecidableEq

/-- How `DartClient.get` terminates: a successful `r.json()` (recording
which 0-based attempt succeeded), an exception propagated straight out
of `requests.get`, an `HTTPError` from the final `raise_for_status()`,
an implicit `None` return (final status not 4xx/5xx), or the
`NameError` of `max_retries = 0` (loop body never ran). -/
inductive GetResult where
  | ok (attempt : Nat)
  | raised
  | httpError (code : Nat)
  | retNone
  | nameError
deriving DecidableEq

/-- The retry loop of `DartClient.get` over the remaining attempt
indices, carrying the last seen status code.  Returns (result, number
of `requests.get` calls performed, the `time.sleep` durations in order,
as multiples of `sleep_sec`). -/
def clientGetGo (responses : Nat → HttpOutcome) (sleepSec : Nat) :
    List Nat → Option Nat → GetResult × Nat × List Nat
  | [], last =>
    (match last with
     | some c =>
       if 400 ≤ c ∧ c < 600 then GetResult.httpError c else GetResult.retNone
     | none => GetResult.nameError, 0, [])
  | a :: rest, _ =>
    match responses a with
    | HttpOutcome.exn => (GetResult.raised, 1, [])
    | HttpOutcome.status c =>
      if c = 200 then (GetResult.ok a, 1, [])
      else
        ((clientGetGo responses sleepSec rest (some c)).1,
         (clientGetGo responses sleepSec rest (some c)).2.1 + 1,
         sleepSec * (a + 1) :: (clientGetGo responses sleepSec rest (some c)).2.2)

/-- `DartClient.get`: `for attempt in range(max_retries)` with the
loop body `requests.get` → return on 200 → `sleep(sleep_sec * (attempt
+ 1))`, then `r.raise_for_status()`. -/
def clientGet (responses : Nat → HttpOutcome) (sleepSec maxRetries : Nat) :
    GetResult × Nat × List Nat :=
  clientGetGo responses sleepSec (List.range maxRetries) none

lemma goConsExn (responses : Nat → HttpOutcome) (s a : Nat) (rest : List Nat)
    (last : Option Nat) (h : responses a = HttpOutcome.exn) :
    clientGetGo responses s (a :: rest) last = (GetResult.raised, 1, []) := by
  simp [clientGetGo, h]

lemma goCons200 (responses : Nat → HttpOutcome) (s a : Nat) (rest : List Nat)
    (last : Option Nat) (h : responses a = HttpOutcome.status 200) :
    clientGetGo responses s (a :: rest) last = (GetResult.ok a, 1, []) := by
  simp [clientGetGo, h]

lemma goConsFail (responses : Nat → HttpOutcome) (s a c : Nat) (rest : List Nat)
    (last : Option Nat) (h : responses a = HttpOutcome.status c) (hc : ¬ c = 200) :
    clientGetGo responses s (a :: rest) last =
      ((clientGetGo responses s rest (some c)).1,
       (clientGetGo responses s rest (some c)).2.1 + 1,
       s * (a + 1) :: (clientGetGo responses s rest (some c)).2.2) := by
  simp [clientGetGo, h, hc]

lemma goNilErr (responses : Nat → HttpOutcome) (s c : Nat)
    (h1 : 400 ≤ c) (h2 : c < 600) :
    clientGetGo responses s [] (some c) = (GetResult.httpError c, 0, []) := by
  simp [clientGetGo, h1, h2]

lemma goAllFail (responses : Nat → HttpOutcome) (s : Nat) :
    ∀ (l : List Nat) (last : Option Nat),
      (∀ a ∈ l, ∃ c, responses a = HttpOutcome.status c ∧ ¬ c = 200 ∧
        400 ≤ c ∧ c < 600) →
      l ≠ [] →
      ∃ a c, l.getLast? = some a ∧ responses a = HttpOutcome.status c ∧
        clientGetGo responses s l last =
          (GetResult.httpError c, l.length, l.map fun x => s * (x + 1)) := by
  intro l
  induction l with
  | nil =>
    intro last h hne
    exact absurd rfl hne
  | cons a rest ih =>
    intro last h _
    obtain ⟨c, hc, hc200, hc400, hc600⟩ := h a (List.mem_cons_self a rest)
    cases rest with
    | nil =>
      refine ⟨a, c, rfl, hc, ?_⟩
      rw [goConsFail responses s a c [] last hc hc200,
        goNilErr responses s c hc400 hc600]
      rfl
    | cons b rest2 =>
      obtain ⟨a2, c2, hlast, hresp, hgo⟩ :=
        ih (some c) (fun x hx => h x (List.mem_cons_of_mem _ hx)) (by simp)
      refine ⟨a2, c2, ?_, hresp, ?_⟩
      · rw [List.getLast?_cons_cons]
        exact hlast
      · rw [goConsFail responses s a c (b :: rest2) last hc hc200, hgo]
        rfl

/-- **C7 (amended).** `DartClient.get` retries only HTTP calls that
return a non-200 status: those are retried with linearly increasing
delay (`sleep_sec * 1, * 2, * 3`) up to the 3-attempt cap, after which
the last error status is surfaced via `raise_for_status()`.  An HTTP
call that raises (connection failure or timeout) is NOT retried: the
exception propagates to the caller after a single attempt.  A 200
response returns immediately. -/
theorem clientGet_retry_behavior :
    (∀ (responses : Nat → HttpOutcome) (s : Nat),
      (∀ a, a < 3 → ∃ c, responses a = HttpOutcome.status c ∧ ¬ c = 200 ∧
        400 ≤ c ∧ c < 600) →
      ∃ c, responses 2 = HttpOutcome.status c ∧
        clientGet responses s 3 =
          (GetResult.httpError c, 3, [s * 1, s * 2, s * 3]))
    ∧ (∀ (responses : Nat → HttpOutcome) (s : Nat),
      responses 0 = HttpOutcome.exn →
      clientGet responses s 3 = (GetResult.raised, 1, []))
    ∧ (∀ (responses : Nat → HttpOutcome) (s : Nat),
      responses 0 = HttpOutcome.status 200 →
      clientGet responses s 3 = (GetResult.ok 0, 1, [])) := by
  refine ⟨?_, ?_, ?_⟩
  · intro responses s h
    have hmem : ∀ a ∈ [0, 1, 2], ∃ c, responses a = HttpOutcome.status c ∧
        ¬ c = 200 ∧ 400 ≤ c ∧ c < 600 := by
      intro a ha
      refine h a ?_
      simp at ha
      omega
    obtain ⟨a, c, hlast, hresp, hgo⟩ :=
      goAllFail responses s [0, 1, 2] none hmem (by simp)
    have ha : a = 2 := by
      simp only [List.getLast?_cons_cons] at hlast
      simpa using hlast.symm
    subst ha
    refine ⟨c, hresp, ?_⟩
    show clientGetGo responses s (List.range 3) none = _
    rw [show List.range 3 = [0, 1, 2] from rfl, hgo]
    rfl
  · intro responses s h
    show clientGetGo responses s (List.range 3) none = _
    rw [show List.range 3 = [0, 1, 2] from rfl]
    exact goConsExn responses s 0 [1, 2] none h
  · intro responses s h
    show clientGetGo responses s (List.range 3) none = _
    rw [show List.range 3 = [0, 1, 2] from rfl]
    exact goCons200 responses s 0 [1, 2] none h

/-- Witness for C7's amended theorem: a transport answering 500 on
every attempt is retried three times with delays s, 2s, 3s and then
surfaced as an HTTP error. -/
theorem clientGet_retry_behavior_witness :
    ∃ c, (fun _ => HttpOutcome.status 500) 2 = HttpOutcome.status c ∧
      clientGet (fun _ => HttpOutcome.status 500) 1 3 =
        (GetResult.httpError c, 3, [1 * 1, 1 * 2, 1 * 3]) :=
  clientGet_retry_behavior.1 (fun _ => HttpOutcome.status 500) 1
    (fun a _ => ⟨500, rfl, by decide, by decide, by decide⟩)

/-- Counterexample to C7 as stated: a call that times out on its first
attempt (the transport raises) is surfaced immediately after exactly
one attempt, with no sleeps — not retried up to the 3-attempt cap. -/
theorem clientGet_timeout_counterexample :
    clientGet (fun _ => HttpOutcome.exn) 1 3 = (GetResult.raised, 1, [])
    ∧ ¬ (clientGet (fun _ => HttpOutcome.exn) 1 3).2.1 = 3 := by
  decide

/-! ## Phase 2: detail enrichment merge
(`src/ingest/events_detail.py`, `enrich_events_detail`) -/

/-- One row of the events table as read back for enrichment.  `rcp_no`
is nullable in parquet (`none` models null/NaN); the three enrichable
fields are nullable. -/
structure DetailRow where
  rcp_no : Option String
  corp_code : String
  amount : Option String
  counterparty : Option String
  summary : Option String
deriving DecidableEq

/-- `try_enrich_one`'s result: best-effort amount / counterparty /
summary, each independently nullable. -/
structure Extraction where
  amount : Option String
  counterparty : Option String
  summary : Option String
deriving DecidableEq

/-- `enriched.get(rcp, {})` when the key is missing: every field
absent. -/
def emptyExtraction : Extraction := ⟨none, none, none⟩

/-- The keep-existing test `pd.notna(a0) and a0 not in ("", None)`:
true exactly for a non-null, non-empty string. -/
def fieldFilled : Option String → Bool
  | some s => decide (¬ s = "")
  | none => false

/-- One field of the conservative merge:
`a0 if pd.notna(a0) and a0 not in ("", None) else add.get(...)`. -/
def mergeField (existing candidate : Option String) : Option String :=
  if fieldFilled existing then existing else candidate

/-- The conservative merge of one row against one candidate. -/
def mergeRow (r : DetailRow) (add : Extraction) : DetailRow :=
  { r with amount := mergeField r.amount add.amount,
           counterparty := mergeField r.counterparty add.counterparty,
           summary := mergeField r.summary add.summary }

/-- Python `str(...)` on a nullable value: `str(None) = "None"`. -/
def pyStrOfOpt : Option String → String
  | some s => s
  | none => "None"

/-- `df["rcp_no"].dropna().astype(str).unique().tolist()`: the
distinct non-null receipt ids, first occurrence first. -/
def enrichKeys (rows : List DetailRow) : List String :=
  dedupKeepFirst (rows.filterMap (fun r => r.rcp_no))

/-- The `enriched` dict: one `try_enrich_one` call per key.  `extract`
abstracts `try_enrich_one` (the network fetches are deterministic for
a fixed set of remote responses). -/
def enrichedTable (extract : String → Extraction) (rows : List DetailRow) :
    List (String × Extraction) :=
  (enrichKeys rows).map (fun k => (k, extract k))

/-- `enriched.get(str(r["rcp_no"]), {})`. -/
def candFor (extract : String → Extraction) (rows : List DetailRow)
    (k : String) : Extraction :=
  match (enrichedTable extract rows).lookup k with
  | some e => e
  | none => emptyExtraction

/-- The merge loop of `enrich_events_detail`: every row is folded with
the candidate looked up under `str(r["rcp_no"])`. -/
def enrichMerge (extract : String → Extraction) (rows : List DetailRow) :
    List DetailRow :=
  rows.map (fun r => mergeRow r (candFor extract rows (pyStrOfOpt r.rcp_no)))

/-! ### Properties of the enrichment merge -/

lemma dedupAuxNodupAndFresh {α : Type} [DecidableEq α] :
    ∀ (l seen : List α), (dedupKeepFirstAux seen l).Nodup ∧
      ∀ x ∈ dedupKeepFirstAux seen l, x ∉ seen := by
  intro l
  induction l with
  | nil =>
    intro seen
    exact ⟨List.nodup_nil, by simp [dedupKeepFirstAux]⟩
  | cons a l2 ih =>
    intro seen
    simp only [dedupKeepFirstAux]
    by_cases h : a ∈ seen
    · rw [if_pos h]
      exact ih seen
    · rw [if_neg h]
      obtain ⟨hn, hs⟩ := ih (a :: seen)
      refine ⟨List.Nodup.cons ?_ hn, ?_⟩
      · intro hmem
        exact (hs a hmem) (List.mem_cons_self a seen)
      · intro x hx
        rcases List.mem_cons.mp hx with h2 | h2
        · exact h2 ▸ h
        · intro hxseen
          exact (hs x h2) (List.mem_cons_of_mem _ hxseen)

lemma dedupAuxMem {α : Type} [DecidableEq α] :
    ∀ (l seen : List α) (x : α),
      x ∈ dedupKeepFirstAux seen l ↔ (x ∈ l ∧ x ∉ seen) := by
  intro l
  induction l with
  | nil =>
    intro seen x
    simp [dedupKeepFirstAux]
  | cons a l2 ih =>
    intro seen x
    simp only [dedupKeepFirstAux]
    by_cases h : a ∈ seen
    · rw [if_pos h, ih seen x]
      constructor
      · rintro ⟨h1, h2⟩
        exact ⟨List.mem_cons_of_mem _ h1, h2⟩
      · rintro ⟨h1, h2⟩
        rcases List.mem_cons.mp h1 with rfl | h3
        · exact absurd h h2
        · exact ⟨h3, h2⟩
    · rw [if_neg h]
      constructor
      · intro hx
        rcases List.mem_cons.mp hx with rfl | h2
        · exact ⟨List.mem_cons_self _ _, h⟩
        · have h3 := (ih (a :: seen) x).mp h2
          exact ⟨List.mem_cons_of_mem _ h3.1,
            fun hs => h3.2 (List.mem_cons_of_mem _ hs)⟩
      · rintro ⟨h1, h2⟩
        rcases List.mem_cons.mp h1 with rfl | h3
        · exact List.mem_cons_self _ _
        · by_cases hxa : x = a
          · subst hxa
            exact List.mem_cons_self _ _
          · refine List.mem_cons_of_mem _ ((ih (a :: seen) x).mpr ⟨h3, ?_⟩)
            intro hmem
            rcases List.mem_cons.mp hmem with h4 | h4
            · exact hxa h4
            · exact h2 h4

lemma lookupMapSelf {α β : Type} [DecidableEq α] :
    ∀ (keys : List α) (f : α → β) (k : α), k ∈ keys →
      (keys.map (fun x => (x, f x))).lookup k = some (f k) := by
  intro keys
  induction keys with
  | nil =>
    intro f k h
    simp at h
  | cons a rest ih =>
    intro f k h
    by_cases hk : k = a
    · subst hk
      simp [List.lookup]
    · have hne : (k == a) = false := by
        simp [hk]
      simp only [List.map_cons, List.lookup, hne]
      refine ih f k ?_
      rcases List.mem_cons.mp h with h2 | h2
      · exact absurd h2 hk
      · exact h2

lemma lookupMapNone {α β : Type} [DecidableEq α] :
    ∀ (keys : List α) (f : α → β) (k : α), k ∉ keys →
      (keys.map (fun x => (x, f x))).lookup k = none := by
  intro keys
  induction keys with
  | nil =>
    intro f k _
    rfl
  | cons a rest ih =>
    intro f k h
    have hk : ¬ k = a := fun he => h (he ▸ List.mem_cons_self a rest)
    have hne : (k == a) = false := by
      simp [hk]
    simp only [List.map_cons, List.lookup, hne]
    exact ih f k (fun hm => h (List.mem_cons_of_mem _ hm))

lemma enrichKeysMem (rows : List DetailRow) (k : String) :
    k ∈ enrichKeys rows ↔ ∃ r ∈ rows, r.rcp_no = some k := by
  unfold enrichKeys dedupKeepFirst
  rw [dedupAuxMem]
  simp [List.mem_filterMap]

lemma forallTwoMergeRow (g : DetailRow → Extraction) :
    ∀ rows : List DetailRow, List.Forall₂ (fun r r2 =>
      (fieldFilled r.amount = true → r2.amount = r.amount)
      ∧ (fieldFilled r.counterparty = true → r2.counterparty = r.counterparty)
      ∧ (fieldFilled r.summary = true → r2.summary = r.summary))
      rows (rows.map (fun r => mergeRow r (g r))) := by
  intro rows
  induction rows with
  | nil => exact List.Forall₂.nil
  | cons r rest ih =>
    refine List.Forall₂.cons ?_ ih
    refine ⟨?_, ?_, ?_⟩ <;> intro h <;> simp [mergeRow, mergeField, h]

/-- **C2.** The enrichment merge is conservative field by field: a
field that is already non-empty on the existing record is never
replaced, and an empty/absent field takes exactly the candidate's
value; consequently re-running the merge over any table (in
particular an already-enriched one) never changes a populated
amount/counterparty/summary field. -/
theorem enrichMerge_conservative :
    (∀ e c : Option String, fieldFilled e = true → mergeField e c = e)
    ∧ (∀ e c : Option String, fieldFilled e = false → mergeField e c = c)
    ∧ (∀ (extract : String → Extraction) (rows : List DetailRow),
      List.Forall₂ (fun r r2 =>
        (fieldFilled r.amount = true → r2.amount = r.amount)
        ∧ (fieldFilled r.counterparty = true → r2.counterparty = r.counterparty)
        ∧ (fieldFilled r.summary = true → r2.summary = r.summary))
        rows (enrichMerge extract rows)) := by
  have hkeep : ∀ e c : Option String, fieldFilled e = true → mergeField e c = e := by
    intro e c h
    simp [mergeField, h]
  refine ⟨hkeep, ?_, ?_⟩
  · intro e c h
    simp [mergeField, h]
  · intro extract rows
    exact forallTwoMergeRow
      (fun r => candFor extract rows (pyStrOfOpt r.rcp_no)) rows

/-- Witness for C2: a populated amount survives a merge against a
different candidate; an absent one takes the candidate. -/
theorem enrichMerge_conservative_witness :
    mergeField (some "1,000") (some "2,000") = some "1,000"
    ∧ mergeField none (some "2,000") = some "2,000" :=
  ⟨enrichMerge_conservative.1 (some "1,000") (some "2,000") (by decide),
   enrichMerge_conservative.2.1 none (some "2,000") (by decide)⟩

/-- **C9 (amended).** Enrichment candidates are computed exactly once
per distinct non-null receipt id (`enrichKeys` is duplicate-free and
contains exactly the non-null receipt ids), and the candidate applied
to a row depends only on `str(rcp_no)` — so rows sharing a receipt id
receive the same candidate regardless of corp_code.  A row with a null
receipt id receives no extracted candidate, PROVIDED no row's receipt
id is the literal string "None": Python's `str(None)` sentinel makes a
null key collide with that literal. -/
theorem enrichCandidates_keyed :
    (∀ rows : List DetailRow, (enrichKeys rows).Nodup)
    ∧ (∀ (rows : List DetailRow) (k : String),
      k ∈ enrichKeys rows ↔ ∃ r ∈ rows, r.rcp_no = some k)
    ∧ (∀ (extract : String → Extraction) (rows : List DetailRow) (k : String),
      k ∈ enrichKeys rows → candFor extract rows k = extract k)
    ∧ (∀ (extract : String → Extraction) (rows : List DetailRow),
      enrichMerge extract rows =
        rows.map (fun r => mergeRow r (candFor extract rows (pyStrOfOpt r.rcp_no))))
    ∧ (∀ (extract : String → Extraction) (rows : List DetailRow),
      "None" ∉ enrichKeys rows →
        candFor extract rows "None" = emptyExtraction) := by
  refine ⟨?_, enrichKeysMem, ?_, fun _ _ => rfl, ?_⟩
  · intro rows
    exact (dedupAuxNodupAndFresh (rows.filterMap (fun r => r.rcp_no)) []).1
  · intro extract rows k hk
    unfold candFor enrichedTable
    rw [lookupMapSelf (enrichKeys rows) extract k hk]
  · intro extract rows h
    unfold candFor enrichedTable
    rw [lookupMapNone (enrichKeys rows) extract "None" h]

/-- Witness for C9's amended theorem: concrete two-row table where the
second row's receipt id is absent and no key is the literal "None". -/
theorem enrichCandidates_keyed_witness :
    candFor (fun _ => Extraction.mk (some "42") none none)
        [DetailRow.mk (some "X1") "c1" none none none,
         DetailRow.mk none "c2" none none none] "None" = emptyExtraction :=
  enrichCandidates_keyed.2.2.2.2 (fun _ => Extraction.mk (some "42") none none)
    [DetailRow.mk (some "X1") "c1" none none none,
     DetailRow.mk none "c2" none none none] (by decide)

/-- Counterexample to C9 as stated: when one row's receipt id is the
literal string "None", the row whose receipt id is null DOES receive
that key's extracted candidate (`str(None) = "None"` collides with the
dict key), so its absent amount is filled with "42". -/
theorem enrichNullRow_counterexample :
    enrichMerge (fun _ => Extraction.mk (some "42") none none)
        [DetailRow.mk (some "None") "c1" none none none,
         DetailRow.mk none "c2" none none none] =
      [DetailRow.mk (some "None") "c1" (some "42") none none,
       DetailRow.mk none "c2" (some "42") none none] := by
  decide

/-! ## Filing lister pagination (`_fetch_list_for_company`) -/

/-- One element of the list endpoint's `list` array; absent fields
default to `""` via `it.get(field, "")`. -/
structure ListItem where
  rcept_no : Option String
  corp_code : Option String
  corp_name : Option String
  rcept_dt : Option String
  report_nm : Option String
deriving DecidableEq

/-- The row appended for one list item. -/
def mkStub (it : ListItem) : FilingStub :=
  { rcept_no := it.rcept_no.getD "", corp_code := it.corp_code.getD "",
    corp_name := it.corp_name.getD "", rcept_dt := it.rcept_dt.getD "",
    report_nm := it.report_nm.getD "" }

/-- One JSON response of the list endpoint, restricted to the consumed
fields: `status`, `list`, `total_count` (absent `total_count` defaults
to `len(lst)`). -/
structure ListResp where
  status : String
  lst : List ListItem
  total_count : Option Nat
deriving DecidableEq

/-- `int(j.get("total_count", len(lst)))`. -/
def totalCount (resp : ListResp) : Nat := resp.total_count.getD resp.lst.length

/-- `math.ceil(total_count / PAGE_COUNT) if total_count else page_no`. -/
def maxPage (resp : ListResp) (pageNo : Nat) : Nat :=
  if totalCount resp = 0 then pageNo
  else (totalCount resp + PAGE_COUNT - 1) / PAGE_COUNT

/-- The `while True` pagination loop of `_fetch_list_for_company`,
returning the rows collected from `pageNo` on.  `pages` gives the
endpoint's response per requested page number; the fuel bounds the trip
count (every theorem below carries enough fuel for the pages it
traverses). -/
def fetchListGo (pages : Nat → ListResp) : Nat → Nat → List FilingStub
  | 0, _ => []
  | fuel + 1, pageNo =>
    if ¬ ((pages pageNo).status = "000" ∨ (pages pageNo).status = "013") then []
    else if (pages pageNo).lst = [] then []
    else
      (pages pageNo).lst.map mkStub ++
        (if maxPage (pages pageNo) pageNo ≤ pageNo then []
         else fetchListGo pages fuel (pageNo + 1))

/-- `_fetch_list_for_company`: start at page 1. -/
def fetchListForCompany (pages : Nat → ListResp) (fuel : Nat) : List FilingStub :=
  fetchListGo pages fuel 1

/-- The rows contributed by pages `a, a+1, …, a+b-1`. -/
def pagesRows (pages : Nat → ListResp) (a b : Nat) : List FilingStub :=
  ((List.range' a b).map (fun i => (pages i).lst.map mkStub)).flatten

/-- Page `i` lets the loop continue: accepted status, non-empty list,
and the computed page count still ahead. -/
def goodPage (pages : Nat → ListResp) (i : Nat) : Prop :=
  ((pages i).status = "000" ∨ (pages i).status = "013")
  ∧ (pages i).lst ≠ [] ∧ i < maxPage (pages i) i

/-! ### Properties of the pagination loop -/

lemma fetchGoSpec (pages : Nat → ListResp) :
    ∀ (n p fuel : Nat), (∀ i, p ≤ i → i < p + n → goodPage pages i) →
      n < fuel →
      fetchListGo pages fuel p =
        pagesRows pages p n ++ fetchListGo pages (fuel - n) (p + n) := by
  intro n
  induction n with
  | zero =>
    intro p fuel _ _
    simp [pagesRows]
  | succ k ih =>
    intro p fuel hgood hfuel
    obtain ⟨hst, hne, hmax⟩ := hgood p (le_refl p) (by omega)
    cases fuel with
    | zero => omega
    | succ f =>
      have hstep : fetchListGo pages (f + 1) p =
          (pages p).lst.map mkStub ++ fetchListGo pages f (p + 1) := by
        simp only [fetchListGo]
        rw [if_neg (not_not_intro hst), if_neg hne,
          if_neg (by omega)]
      rw [hstep, ih (p + 1) f (fun i h1 h2 => hgood i (by omega) (by omega))
        (by omega)]
      have hrows : pagesRows pages p (k + 1) =
          (pages p).lst.map mkStub ++ pagesRows pages (p + 1) k := by
        simp [pagesRows, List.range'_succ]
      rw [hrows, List.append_assoc]
      have : f - k = f + 1 - (k + 1) := by omega
      rw [this, show p + 1 + k = p + (k + 1) from by omega]

/-- **C5.** For every company-window fetch: pages are requested
successively from page 1; a page with a status outside {"000", "013"}
stops retrieval immediately, returning exactly the rows of the
already-collected pages; an accepted-but-empty page does the same; an
accepted non-empty page whose page number has reached the computed
page count contributes its rows and stops; and the computed page count
is exactly ⌈total_count / PAGE_COUNT⌉ (PAGE_COUNT = 100) whenever
total_count is nonzero. -/
theorem fetchList_pagination (pages : Nat → ListResp) (m fuel : Nat)
    (h1 : 1 ≤ m) (hfuel : m < fuel)
    (hgood : ∀ i, 1 ≤ i → i < m → goodPage pages i) :
    (¬ ((pages m).status = "000" ∨ (pages m).status = "013") →
      fetchListForCompany pages fuel = pagesRows pages 1 (m - 1))
    ∧ ((pages m).lst = [] →
      fetchListForCompany pages fuel = pagesRows pages 1 (m - 1))
    ∧ (((pages m).status = "000" ∨ (pages m).status = "013") →
      (pages m).lst ≠ [] → maxPage (pages m) m ≤ m →
      fetchListForCompany pages fuel = pagesRows pages 1 m)
    ∧ (∀ (resp : ListResp) (p : Nat), totalCount resp ≠ 0 →
      totalCount resp ≤ maxPage resp p * PAGE_COUNT
      ∧ maxPage resp p * PAGE_COUNT < totalCount resp + PAGE_COUNT) := by
  have hbase : fetchListForCompany pages fuel =
      pagesRows pages 1 (m - 1) ++ fetchListGo pages (fuel - (m - 1)) m := by
    unfold fetchListForCompany
    rw [fetchGoSpec pages (m - 1) 1 fuel
      (fun i hi1 hi2 => hgood i hi1 (by omega)) (by omega)]
    rw [show 1 + (m - 1) = m from by omega]
  have hfuel2 : 1 ≤ fuel - (m - 1) := by omega
  refine ⟨?_, ?_, ?_, ?_⟩
  · intro hbad
    rw [hbase]
    cases hf : fuel - (m - 1) with
    | zero => omega
    | succ f =>
      simp only [fetchListGo]
      rw [if_pos hbad]
      simp
  · intro hempty
    rw [hbase]
    cases hf : fuel - (m - 1) with
    | zero => omega
    | succ f =>
      by_cases hbad : ¬ ((pages m).status = "000" ∨ (pages m).status = "013")
      · simp only [fetchListGo]
        rw [if_pos hbad]
        simp
      · simp only [fetchListGo]
        rw [if_neg hbad, if_pos hempty]
        simp
  · intro hst hne hmax
    rw [hbase]
    cases hf : fuel - (m - 1) with
    | zero => omega
    | succ f =>
      simp only [fetchListGo]
      rw [if_neg (not_not_intro hst), if_neg hne, if_pos hmax]
      have hrows : pagesRows pages 1 (m - 1 + 1) =
          pagesRows pages 1 (m - 1) ++ (pages (1 + 1 * (m - 1))).lst.map mkStub := by
        simp [pagesRows, List.range'_concat]
      rw [show 1 + 1 * (m - 1) = m from by omega] at hrows
      rw [show m - 1 + 1 = m from by omega] at hrows
      rw [hrows]
      simp
  · intro resp p htc
    unfold maxPage PAGE_COUNT
    rw [if_neg htc]
    unfold totalCount at htc ⊢
    omega

/-- Witness for C5: a two-page company-window where page 1 reports a
total of 150 rows and page 2 comes back accepted but empty. -/
theorem fetchList_pagination_witness :
    fetchListForCompany
        (fun i => if i = 1 then
          ListResp.mk "000" [ListItem.mk (some "r1") (some "c") none none
            (some "부도발생")] (some 150)
          else ListResp.mk "013" [] (some 0)) 10 =
      pagesRows (fun i => if i = 1 then
          ListResp.mk "000" [ListItem.mk (some "r1") (some "c") none none
            (some "부도발생")] (some 150)
          else ListResp.mk "013" [] (some 0)) 1 1 :=
  (fetchList_pagination
    (fun i => if i = 1 then
      ListResp.mk "000" [ListItem.mk (some "r1") (some "c") none none
        (some "부도발생")] (some 150)
      else ListResp.mk "013" [] (some 0)) 2 10 (by omega) (by omega)
    (by
      intro i hi1 hi2
      have : i = 1 := by omega
      subst this
      refine ⟨Or.inl rfl, by decide, by decide⟩)).2.1 (by decide)

/-! ## Field extractor: amount
(`src/ingest/events_detail.py`, `AMOUNT_KEYS` / `NUM_PAT` /
`_find_first_number_near`) -/

/-- One token of an `AMOUNT_KEYS` regex: a literal run, or the
optional single space `[ ]?`. -/
inductive KwTok where
  | lit (s : String)
  | optSpace
deriving DecidableEq

/-- A keyword pattern is a token sequence.  For these patterns greedy
matching of `[ ]?` is exact: every `[ ]?` is followed by a literal
starting with a non-space character, so consuming an available space
can never turn a match into a failure that skipping would avoid. -/
def KwPat : Type := List KwTok

/-- `AMOUNT_KEYS`, verbatim from `src/ingest/events_detail.py`. -/
def AMOUNT_KEYS : List KwPat :=
  [ [KwTok.lit "취득금액"],
    [KwTok.lit "양수도", KwTok.optSpace, KwTok.lit "금액"],
    [KwTok.lit "거래", KwTok.optSpace, KwTok.lit "금액"],
    [KwTok.lit "총", KwTok.optSpace, KwTok.lit "투자", KwTok.optSpace,
      KwTok.lit "금액"],
    [KwTok.lit "자산", KwTok.optSpace, KwTok.lit "양수", KwTok.optSpace,
      KwTok.lit "금액"],
    [KwTok.lit "영업", KwTok.optSpace, KwTok.lit "양수", KwTok.optSpace,
      KwTok.lit "대가"],
    [KwTok.lit "주식", KwTok.optSpace, KwTok.lit "취득", KwTok.optSpace,
      KwTok.lit "대금"],
    [KwTok.lit "부도", KwTok.optSpace, KwTok.lit "금액"],
    [KwTok.lit "손해배상", KwTok.optSpace, KwTok.lit "금액"] ]

/-- Match one keyword token at the head of `s`, returning the rest. -/
def matchTok : KwTok → List Char → Option (List Char)
  | KwTok.lit w, s =>
    if w.toList.isPrefixOf s then some (s.drop w.toList.length) else none
  | KwTok.optSpace, s =>
    match s with
    | ' ' :: rest => some rest
    | _ => some s

/-- Match a whole keyword pattern at the head of `s`. -/
def matchKw : KwPat → List Char → Option (List Char)
  | [], s => some s
  | t :: ts, s =>
    match matchTok t s with
    | some r => matchKw ts r
    | none => none

/-- Match a keyword at character position `i` of `text`, returning the
end position (exclusive) of the match. -/
def kwMatchAt (kw : KwPat) (text : List Char) (i : Nat) : Option Nat :=
  match matchKw kw (text.drop i) with
  | some rest => some (text.length - rest.length)
  | none => none

/-- The greedy run of `(?:,\d{3})*`: consumed characters and rest. -/
def numCommaGroups : List Char → List Char × List Char
  | ',' :: a :: b :: c :: rest =>
    if a.isDigit && b.isDigit && c.isDigit then
      (',' :: a :: b :: c :: (numCommaGroups rest).1, (numCommaGroups rest).2)
    else ([], ',' :: a :: b :: c :: rest)
  | s => ([], s)

/-- First alternative of `NUM_PAT`:
`[-]?\(?\d{1,3}(?:,\d{3})*(?:\.\d+)?\)?`.  All quantifiers are greedy;
backtracking never applies because every later element is optional and
the elements' first characters are mutually exclusive, so the greedy
parse returns exactly Python's `group(0)`. -/
def numB1 (s : List Char) : Option (List Char) :=
  let st1 := match s with
    | '-' :: r => (['-'], r)
    | _ => (([] : List Char), s)
  let st2 := match st1.2 with
    | '(' :: r => (st1.1 ++ ['('], r)
    | _ => st1
  let ds := (st2.2.takeWhile Char.isDigit).take 3
  if ds.isEmpty then none
  else
    let s3 := st2.2.drop ds.length
    let cg := numCommaGroups s3
    let st5 := match cg.2 with
      | '.' :: r =>
        let fs := r.takeWhile Char.isDigit
        if fs.isEmpty then (([] : List Char), cg.2)
        else ('.' :: fs, r.drop fs.length)
      | _ => (([] : List Char), cg.2)
    let p6 := match st5.2 with
      | ')' :: _ => [')']
      | _ => ([] : List Char)
    some (st2.1 ++ ds ++ cg.1 ++ st5.1 ++ p6)

/-- Second alternative of `NUM_PAT`: `(\d+)\s*억`. -/
def numB2 (s : List Char) : Option (List Char) :=
  let ds := s.takeWhile Char.isDigit
  if ds.isEmpty then none
  else
    let r := s.drop ds.length
    let sp := r.takeWhile Char.isWhitespace
    match r.drop sp.length with
    | '억' :: _ => some (ds ++ sp ++ ['억'])
    | _ => none

/-- Third alternative of `NUM_PAT`: `\d+\s*원`. -/
def numB3 (s : List Char) : Option (List Char) :=
  let ds := s.takeWhile Char.isDigit
  if ds.isEmpty then none
  else
    let r := s.drop ds.length
    let sp := r.takeWhile Char.isWhitespace
    match r.drop sp.length with
    | '원' :: _ => some (ds ++ sp ++ ['원'])
    | _ => none

/-- `NUM_PAT` at one position: alternatives in regex order. -/
def numMatchAt (s : List Char) : Option (List Char) :=
  match numB1 s with
  | some t => some t
  | none =>
    match numB2 s with
    | some t => some t
    | none => numB3 s

/-- `re.search(NUM_PAT, window)`: leftmost position wins, then
alternative order; returns `group(0)`. -/
def numSearch : List Char → Option (List Char)
  | [] => none
  | c :: rest =>
    match numMatchAt (c :: rest) with
    | some t => some t
    | none => numSearch rest

/-- `window = text[max(0, start-80) : min(len(text), end+80)]`. -/
def windowOf (text : List Char) (s e : Nat) : List Char :=
  (text.drop (s - 80)).take (min text.length (e + 80) - (s - 80))

/-- Scan for the next keyword occurrence at or after position `i`
(`re.finditer` order), returning (start, end). -/
def kwSearchFrom (kw : KwPat) (text : List Char) : Nat → Nat → Option (Nat × Nat)
  | 0, _ => none
  | fuel + 1, i =>
    if i ≤ text.length then
      match kwMatchAt kw text i with
      | some e => some (i, e)
      | none => kwSearchFrom kw text fuel (i + 1)
    else none

/-- One round of the occurrence walk: no further occurrence ends the
keyword; otherwise the occurrence's ±80 window is searched and, on a
miss, the walk continues from the occurrence's end via `recCall`. -/
def kwOccBody (text : List Char) (seOpt : Option (Nat × Nat))
    (recCall : Nat → Option (List Char)) : Option (List Char) :=
  match seOpt with
  | none => none
  | some se =>
    match numSearch (windowOf text se.1 se.2) with
    | some t => some t
    | none => recCall (max se.2 (se.1 + 1))

/-- The inner loop of `_find_first_number_near` for one keyword: walk
the non-overlapping occurrences; for each, search its ±80 window for a
`NUM_PAT` token; first hit wins. -/
def kwOccLoop (kw : KwPat) (text : List Char) : Nat → Nat → Option (List Char)
  | 0, _ => none
  | fuel + 1, i =>
    kwOccBody text (kwSearchFrom kw text (text.length + 1) i)
      (kwOccLoop kw text fuel)

/-- `_find_first_number_near(text, AMOUNT_KEYS)`: keywords in list
order; for each, occurrences in order; first window match wins. -/
def findFirstNumberNear (text : List Char) (keys : List KwPat) :
    Option (List Char) :=
  keys.findSome? (fun kw => kwOccLoop kw text (text.length + 1) 0)

/-! ### Properties of amount extraction -/

lemma kwSearchNone (kw : KwPat) (text : List Char)
    (h : ∀ i, i ≤ text.length → kwMatchAt kw text i = none) :
    ∀ fuel i, kwSearchFrom kw text fuel i = none := by
  intro fuel
  induction fuel with
  | zero =>
    intro i
    rfl
  | succ f ih =>
    intro i
    simp only [kwSearchFrom]
    by_cases hi : i ≤ text.length
    · rw [if_pos hi, h i hi]
      exact ih (i + 1)
    · rw [if_neg hi]

lemma kwSearchSome (kw : KwPat) (text : List Char) :
    ∀ fuel i s e, kwSearchFrom kw text fuel i = some (s, e) →
      kwMatchAt kw text s = some e := by
  intro fuel
  induction fuel with
  | zero =>
    intro i s e h
    exact Option.noConfusion h
  | succ f ih =>
    intro i s e h
    simp only [kwSearchFrom] at h
    by_cases hi : i ≤ text.length
    · rw [if_pos hi] at h
      cases hm : kwMatchAt kw text i with
      | none =>
        rw [hm] at h
        exact ih (i + 1) s e h
      | some e2 =>
        rw [hm] at h
        simp only [Option.some.injEq, Prod.mk.injEq] at h
        rw [← h.1, ← h.2]
        exact hm
    · rw [if_neg hi] at h
      exact absurd h (by simp)

lemma occLoopNone (kw : KwPat) (text : List Char)
    (h : ∀ i, i ≤ text.length → kwMatchAt kw text i = none) :
    ∀ fuel i, kwOccLoop kw text fuel i = none := by
  intro fuel i
  cases fuel with
  | zero => rfl
  | succ f =>
    have hs := kwSearchNone kw text h (text.length + 1) i
    show kwOccBody text (kwSearchFrom kw text (text.length + 1) i)
      (kwOccLoop kw text f) = none
    rw [hs]
    rfl

lemma occLoopSome (kw : KwPat) (text : List Char) :
    ∀ fuel i tok, kwOccLoop kw text fuel i = some tok →
      ∃ s e, kwMatchAt kw text s = some e ∧
        numSearch (windowOf text s e) = some tok := by
  intro fuel
  induction fuel with
  | zero =>
    intro i tok h
    exact Option.noConfusion h
  | succ f ih =>
    intro i tok h
    have h2 : kwOccBody text (kwSearchFrom kw text (text.length + 1) i)
        (kwOccLoop kw text f) = some tok := h
    cases hs : kwSearchFrom kw text (text.length + 1) i with
    | none =>
      rw [hs] at h2
      exact Option.noConfusion h2
    | some se =>
      rw [hs] at h2
      have h3 : (match numSearch (windowOf text se.1 se.2) with
          | some t => some t
          | none => kwOccLoop kw text f (max se.2 (se.1 + 1))) = some tok := h2
      cases hn : numSearch (windowOf text se.1 se.2) with
      | none =>
        rw [hn] at h3
        have h4 : kwOccLoop kw text f (max se.2 (se.1 + 1)) = some tok := h3
        exact ih _ tok h4
      | some t =>
        rw [hn] at h3
        have ht : t = tok := by
          injection h3
        refine ⟨se.1, se.2,
          kwSearchSome kw text (text.length + 1) i se.1 se.2 (by rw [hs]), ?_⟩
        rw [hn, ht]

/-- **C8.** Amount extraction: scanning the `AMOUNT_KEYS` patterns in
list order and each keyword occurrence's ±80-character window with the
`NUM_PAT` grammar — (i) on the spec's example text the token
"1,234,567" is returned (keyword-window match on 거래금액); (ii) a
text in which no amount keyword occurs yields an absent amount;
(iii) every returned token is the `NUM_PAT` search result of the
±80-character window of some amount-keyword occurrence. -/
theorem amount_extraction_spec :
    (findFirstNumberNear "거래금액은 1,234,567원입니다".toList AMOUNT_KEYS =
      some "1,234,567".toList)
    ∧ (∀ text : List Char,
      (∀ kw ∈ AMOUNT_KEYS, ∀ i, i ≤ text.length → kwMatchAt kw text i = none) →
      findFirstNumberNear text AMOUNT_KEYS = none)
    ∧ (∀ (text tok : List Char),
      findFirstNumberNear text AMOUNT_KEYS = some tok →
      ∃ kw ∈ AMOUNT_KEYS, ∃ s e, kwMatchAt kw text s = some e ∧
        numSearch (windowOf text s e) = some tok) := by
  refine ⟨by decide, ?_, ?_⟩
  · intro text h
    unfold findFirstNumberNear
    rw [List.findSome?_eq_none_iff]
    intro kw hkw
    exact occLoopNone kw text (h kw hkw) (text.length + 1) 0
  · intro text tok h
    unfold findFirstNumberNear at h
    obtain ⟨l1, kw, l2, hsplit, hloop, _⟩ := List.findSome?_eq_some_iff.mp h
    have hkw : kw ∈ AMOUNT_KEYS := by
      rw [hsplit]
      exact List.mem_append.mpr (Or.inr (List.mem_cons_self _ _))
    obtain ⟨s, e, h1, h2⟩ := occLoopSome kw text (text.length + 1) 0 tok hloop
    exact ⟨kw, hkw, s, e, h1, h2⟩

/-- Witness for C8: the example instance, plus the no-keyword text
"해당사항 없음" yielding an absent amount. -/
theorem amount_extraction_spec_witness :
    findFirstNumberNear "거래금액은 1,234,567원입니다".toList AMOUNT_KEYS =
      some "1,234,567".toList
    ∧ findFirstNumberNear "해당사항 없음".toList AMOUNT_KEYS = none :=
  ⟨amount_extraction_spec.1,
   amount_extraction_spec.2.1 "해당사항 없음".toList (by decide)⟩

end DartPipeline
